import Mathlib

/-!
Verification development for the currency-rates repository (lab9).

The embedding follows the three core source files:
  * `controllers/cbr_api.py`          — feed client `get_currencies`
  * `controllers/databasecontroller.py` — SQLite-backed store `CurrencyRatesCRUD`
  * `controllers/currencycontroller.py` — `CurrencyController` and its sync
    routine `update_from_cbr`

Python dictionaries become association lists, the SQLite `currency` table
becomes a list of rows plus an autoincrement counter, and each Python
function becomes a Lean function with the same name.
-/

namespace Lab9

/-- Model of Python `str.upper()` (ASCII case mapping, which agrees with
Python on all strings appearing in this development). -/
def pyUpper (s : String) : String :=
  String.mk (s.data.map Char.toUpper)

/-- A JSON value that can sit in the `Value` field of a `Valute` entry.
Numbers (Python `int` and `float`) are modelled as rationals; booleans are
kept separate because Python's `isinstance(value, (int, float))` accepts
them (bool is a subclass of int). -/
inductive JValue where
  | num (q : ℚ)
  | str (s : String)
  | bool (b : Bool)
  | null
  deriving DecidableEq, Repr

/-- The result of `data["Valute"][code].get("Value")`: `none` models a
missing `"Value"` key. -/
abbrev ValuteEntry := Option JValue

/-- The possible outcomes of the HTTP fetch + JSON decode in
`get_currencies`, before the per-code loop runs: a transport/HTTP failure
(`requests.RequestException`), a body that is not JSON, a JSON body without
the top-level `"Valute"` key, or a decoded `Valute` mapping. -/
inductive FeedResponse where
  | transportError
  | invalidJson
  | missingValute
  | ok (valute : List (String × ValuteEntry))
  deriving DecidableEq, Repr

/-- The errors `get_currencies` raises: `ConnectionError` ("API недоступен"),
`ValueError` ("Некорректный JSON"), `KeyError` for a missing `Valute` key,
`KeyError` for a requested code absent from the feed, and `TypeError` for a
`Value` of the wrong type. -/
inductive ApiError where
  | connectionError
  | invalidJsonError
  | missingValuteError
  | currencyMissing (code : String)
  | badValueType (code : String)
  deriving DecidableEq, Repr

/-- Python dict lookup `d[k]` / `k in d` on an association list (first
binding wins, as in a dict there is at most one). -/
def dictGet? {α : Type} (d : List (String × α)) (k : String) : Option α :=
  (d.find? (fun p => p.1 = k)).map (fun p => p.2)

/-- Python dict assignment `d[k] = v`: overwrite in place if the key is
present, append otherwise. -/
def dictInsert {α : Type} (d : List (String × α)) (k : String) (v : α) :
    List (String × α) :=
  if d.any (fun p => p.1 = k) then
    d.map (fun p => if p.1 = k then (k, v) else p)
  else
    d ++ [(k, v)]

/-- The guard `isinstance(value, (int, float))` from `get_currencies`.
Note that Python booleans pass this check because `bool` subclasses `int`. -/
def isNumericPy : ValuteEntry → Bool
  | some (.num _) => true
  | some (.bool _) => true
  | _ => false

/-- The coercion `float(value)` applied after the `isinstance` guard:
numbers map to themselves, `True`/`False` to `1`/`0`. -/
def pyFloat : ValuteEntry → ℚ
  | some (.num q) => q
  | some (.bool b) => if b then 1 else 0
  | _ => 0

/-- The per-code loop of `get_currencies`: look each requested code up in
the `Valute` mapping exactly as written (`if code not in data["Valute"]`),
check the `isinstance` guard on `.get("Value")`, and build the result dict
`result[code] = float(value)`. -/
def fetchLoop (valute : List (String × ValuteEntry))
    (acc : List (String × ℚ)) : List String → Except ApiError (List (String × ℚ))
  | [] => .ok acc
  | code :: rest =>
    match dictGet? valute code with
    | none => .error (.currencyMissing code)
    | some entry =>
      if isNumericPy entry then
        fetchLoop valute (dictInsert acc code (pyFloat entry)) rest
      else
        .error (.badValueType code)

/-- `get_currencies(currency_codes)` from `controllers/cbr_api.py`, with the
network response abstracted into a `FeedResponse` argument. -/
def get_currencies (currency_codes : List String) (resp : FeedResponse) :
    Except ApiError (List (String × ℚ)) :=
  match resp with
  | .transportError => .error .connectionError
  | .invalidJson => .error .invalidJsonError
  | .missingValute => .error .missingValuteError
  | .ok valute => fetchLoop valute [] currency_codes

/-- A row of the SQLite `currency` table. -/
structure CurrencyRow where
  id : Nat
  num_code : String
  char_code : String
  name : String
  value : ℚ
  nominal : Int
  deriving DecidableEq, Repr

/-- The dictionary passed to `_create` (a row without its `id`, which the
`AUTOINCREMENT` column assigns). -/
structure CurrencyInput where
  num_code : String
  char_code : String
  name : String
  value : ℚ
  nominal : Int
  deriving DecidableEq, Repr

/-- The state of the in-memory `currency` table: its rows in rowid order
plus the next `AUTOINCREMENT` id (monotonic, never reused). -/
structure Store where
  rows : List CurrencyRow
  next_id : Nat
  deriving DecidableEq, Repr

/-- A freshly created database (`sqlite3.connect(":memory:")` with the
tables just created). -/
def Store.empty : Store := ⟨[], 1⟩

/-- The store-side error: `sqlite3.IntegrityError` raised by the
`char_code TEXT NOT NULL UNIQUE` constraint. SQLite's default BINARY
collation compares `char_code` case-sensitively. -/
inductive DbError where
  | constraintViolation
  deriving DecidableEq, Repr

/-- `CurrencyRatesCRUD._create(data)`: `cursor.executemany` of the INSERT,
row by row. A row whose `char_code` exactly equals an existing row's
`char_code` violates the UNIQUE constraint and raises; rows inserted
earlier in the same batch remain visible on the connection (no rollback is
ever issued, and later commits persist them). -/
def _create (s : Store) : List CurrencyInput → Store × Option DbError
  | [] => (s, none)
  | r :: rest =>
    if s.rows.any (fun x => x.char_code = r.char_code) then
      (s, some .constraintViolation)
    else
      _create ⟨s.rows ++ [⟨s.next_id, r.num_code, r.char_code, r.name, r.value, r.nominal⟩],
               s.next_id + 1⟩ rest

/-- `CurrencyRatesCRUD._read(char_code)`: `SELECT * FROM currency` either
unfiltered (when `char_code` is `None` or `""`, both falsy in Python's
`if char_code:`) or with `WHERE char_code = char_code.upper()`. -/
def _read (s : Store) (char_code : Option String) : List CurrencyRow :=
  match char_code with
  | some c => if c = "" then s.rows else s.rows.filter (fun r => r.char_code = pyUpper c)
  | none => s.rows

/-- `CurrencyRatesCRUD._update(currency)`: takes the first (code, value)
item of the dict and runs `UPDATE currency SET value = ? WHERE char_code =
code.upper()`. An empty dict would raise `IndexError` in Python; callers
always pass a singleton, and the model returns the store unchanged there. -/
def _update (s : Store) (currency : List (String × ℚ)) : Store :=
  match currency with
  | [] => s
  | (code, val) :: _ =>
    { s with rows := s.rows.map (fun r =>
        if r.char_code = pyUpper code then { r with value := val } else r) }

/-- `CurrencyRatesCRUD._delete(currency_id)`: `DELETE FROM currency WHERE
id = ?`; matching nothing is not an error. -/
def _delete (s : Store) (currency_id : Nat) : Store :=
  { s with rows := s.rows.filter (fun r => r.id ≠ currency_id) }

/-- `CurrencyController.list_currencies()`. -/
def list_currencies (s : Store) : List CurrencyRow :=
  _read s none

/-- `CurrencyController.get_currency(char_code)`: `_read(char_code.upper())`,
then the first result or `None`. -/
def get_currency (s : Store) (char_code : String) : Option CurrencyRow :=
  (_read s (some (pyUpper char_code))).head?

/-- `CurrencyController.update_currency(char_code, value)`:
`_update({char_code.upper(): value})`. -/
def update_currency (s : Store) (char_code : String) (value : ℚ) : Store :=
  _update s [(pyUpper char_code, value)]

/-- `CurrencyController.delete_currency(currency_id)`. -/
def delete_currency (s : Store) (currency_id : Nat) : Store :=
  _delete s currency_id

/-- `CurrencyController._default_num_code(char_code)`: the fixed lookup
table `{"USD": "840", "EUR": "978", "GBP": "826", "AUD": "036"}` with
default `"000"`, keyed by the upper-cased code. -/
def _default_num_code (char_code : String) : String :=
  if pyUpper char_code = "USD" then "840"
  else if pyUpper char_code = "EUR" then "978"
  else if pyUpper char_code = "GBP" then "826"
  else if pyUpper char_code = "AUD" then "036"
  else "000"

/-- One iteration of the loop in `CurrencyController.update_from_cbr`: if
`get_currency(code)` is `None`, `_create` a new record with the derived
numeric code, name = code, nominal = 1; else `update_currency(code, value)`. -/
def syncOne (s : Store) (code : String) (value : ℚ) : Store × Option DbError :=
  match get_currency s code with
  | none => _create s [⟨_default_num_code code, code, code, value, 1⟩]
  | some _ => (update_currency s code value, none)

/-- The `for code, value in rates.items()` loop of `update_from_cbr`. A
raised `IntegrityError` aborts the loop, leaving earlier iterations'
effects in place (per-code operations are not a transaction). -/
def applyRates (s : Store) : List (String × ℚ) → Store × Option DbError
  | [] => (s, none)
  | (code, value) :: rest =>
    match syncOne s code value with
    | (s', none) => applyRates s' rest
    | (s', some e) => (s', some e)

/-- Any error `update_from_cbr` can propagate: a feed-client error or a
store constraint violation. -/
inductive SyncError where
  | api (e : ApiError)
  | db (e : DbError)
  deriving DecidableEq, Repr

/-- `CurrencyController.update_from_cbr(currency_codes)`: fetch the rates
first; only on success run the per-code create/update loop. The returned
store reflects all mutations performed before any raised error. -/
def update_from_cbr (s : Store) (currency_codes : List String)
    (resp : FeedResponse) : Store × Option SyncError :=
  match get_currencies currency_codes resp with
  | .error e => (s, some (.api e))
  | .ok rates =>
    match applyRates s rates with
    | (s', none) => (s', none)
    | (s', some e) => (s', some (.db e))

/-- Invariant established for a key/value pair by one successful pass of the
sync loop: every row whose `char_code` equals the key carries the fetched
value, and either such a row exists or (degenerately, for the empty-string
key) the table is non-empty, so `get_currency` takes the update branch. -/
def Synced (s : Store) (k : String) (v : ℚ) : Prop :=
  (∀ r ∈ s.rows, r.char_code = k → r.value = v) ∧
  ((∃ r ∈ s.rows, r.char_code = k) ∨ (k = "" ∧ s.rows ≠ []))

/-! ### Helper lemmas -/

/-- Converting a valid code point to a character and back is the identity. -/
theorem char_toNat_ofNat (n : Nat) (h : n.isValidChar) : (Char.ofNat n).toNat = n := by
  unfold Char.ofNat
  rw [dif_pos h]
  rfl

/-- A character in the ASCII lowercase range is shifted down by 32. -/
theorem char_toUpper_of_lower (c : Char) (h : 97 ≤ c.toNat ∧ c.toNat ≤ 122) :
    c.toUpper = Char.ofNat (c.toNat - 32) := by
  unfold Char.toUpper
  simp only [ge_iff_le, h, and_self, if_pos]

/-- A character outside the ASCII lowercase range is unchanged by `toUpper`. -/
theorem char_toUpper_of_not_lower (c : Char) (h : ¬(97 ≤ c.toNat ∧ c.toNat ≤ 122)) :
    c.toUpper = c := by
  unfold Char.toUpper
  simp only [ge_iff_le, h, if_neg, if_false]

/-- `Char.toUpper` is idempotent. -/
theorem char_toUpper_toUpper (c : Char) : c.toUpper.toUpper = c.toUpper := by
  by_cases h : 97 ≤ c.toNat ∧ c.toNat ≤ 122
  · rw [char_toUpper_of_lower c h]
    apply char_toUpper_of_not_lower
    rw [char_toNat_ofNat (c.toNat - 32) (Or.inl (by omega))]
    omega
  · rw [char_toUpper_of_not_lower c h, char_toUpper_of_not_lower c h]

/-- `pyUpper` is idempotent (Python's `"X".upper().upper() == "X".upper()`). -/
theorem pyUpper_pyUpper (s : String) : pyUpper (pyUpper s) = pyUpper s := by
  unfold pyUpper
  simp [List.map_map, Function.comp_def, char_toUpper_toUpper]

/-- Mapping a function that fixes every element of a list is the identity. -/
theorem map_eq_self_of_fix {α : Type} (l : List α) (f : α → α)
    (h : ∀ x ∈ l, f x = x) : l.map f = l := by
  induction l with
  | nil => rfl
  | cons a t ih =>
    simp only [List.map_cons, h a (List.mem_cons_self a t),
      ih (fun x hx => h x (List.mem_cons_of_mem a hx))]

/-- In a list of rows with pairwise distinct `char_code`s, filtering by the
`char_code` of a member returns exactly that member. -/
theorem filter_char_code_eq_singleton (rows : List CurrencyRow) (c : String)
    (r : CurrencyRow) (hnd : (rows.map (fun x => x.char_code)).Nodup)
    (hr : r ∈ rows) (hc : r.char_code = c) :
    rows.filter (fun x => x.char_code = c) = [r] := by
  induction rows with
  | nil => cases hr
  | cons a t ih =>
    simp only [List.map_cons, List.nodup_cons, List.mem_map] at hnd
    rcases List.mem_cons.mp hr with rfl | hrt
    · rw [List.filter_cons_of_pos (by simp [hc])]
      have : t.filter (fun x => x.char_code = c) = [] := by
        rw [List.filter_eq_nil_iff]
        intro b hb hbc
        exact hnd.1 ⟨b, hb, by simp only [decide_eq_true_eq] at hbc; rw [hbc, hc]⟩
      rw [this]
    · have hane : ¬(a.char_code = c) := by
        intro hac
        exact hnd.1 ⟨r, hrt, by rw [hc, hac]⟩
      rw [List.filter_cons_of_neg (by simp [hane])]
      exact ih hnd.2 hrt

/-- Overwriting a row's value with the value it already holds is the
identity. -/
theorem update_value_self (x : CurrencyRow) (v : ℚ) (h : x.value = v) :
    ({ x with value := v } : CurrencyRow) = x := by
  cases x
  simp_all

/-! ### Claim theorems -/

/-- C10: for every store state, `_read` with the empty string `""` as the
code returns all records, exactly like the absent (`None`) argument, rather
than matching nothing. -/
theorem read_empty_string_returns_all (s : Store) :
    _read s (some "") = s.rows ∧ _read s (some "") = _read s none := by
  constructor <;> rfl

/-- C2: if the feed fetch fails for any reason, `update_from_cbr` raises
the corresponding error and leaves the store entirely unmodified, because
the fetch completes before any store mutation. -/
theorem sync_fetch_failure_store_untouched (s : Store) (codes : List String)
    (resp : FeedResponse) (e : ApiError)
    (h : get_currencies codes resp = .error e) :
    update_from_cbr s codes resp = (s, some (.api e)) := by
  unfold update_from_cbr
  rw [h]

/-- Witness for C2: the spec scenario — the feed returns
`{"USD": {"Value": "bad"}}`, sync fails with the type error and the
(empty) store is untouched. -/
theorem sync_fetch_failure_store_untouched_witness :
    update_from_cbr Store.empty ["USD"] (.ok [("USD", some (.str "bad"))]) =
      (Store.empty, some (.api (.badValueType "USD"))) :=
  sync_fetch_failure_store_untouched Store.empty ["USD"]
    (.ok [("USD", some (.str "bad"))]) (.badValueType "USD") (by rfl)

/-- C3: for an empty store and a feed returning exactly
`{"USD": {"Value": 91.2}}`, after `sync(["USD"])` the store contains
exactly one record: id 1, numeric code `"840"`, char code `"USD"`, name
`"USD"`, value 91.2, nominal 1 — and no error is raised. -/
theorem sync_usd_empty_store_single_record :
    update_from_cbr Store.empty ["USD"] (.ok [("USD", some (.num 91.2))]) =
      (⟨[⟨1, "840", "USD", "USD", 91.2, 1⟩], 2⟩, none) := by
  rfl

/-- C6: store reads are case-insensitive in the requested code: any two
non-empty spellings with the same upper-casing read alike; a stored record
whose `char_code` is the upper-cased code is returned as the unique result;
and a miss returns the empty list rather than failing. -/
theorem read_case_insensitive :
    (∀ (s : Store) (c₁ c₂ : String), c₁ ≠ "" → c₂ ≠ "" → pyUpper c₁ = pyUpper c₂ →
      _read s (some c₁) = _read s (some c₂)) ∧
    (∀ (s : Store) (c : String) (r : CurrencyRow),
      (s.rows.map (fun x => x.char_code)).Nodup → r ∈ s.rows →
      r.char_code = pyUpper c → c ≠ "" → _read s (some c) = [r]) ∧
    (∀ (s : Store) (c : String), c ≠ "" →
      (∀ r ∈ s.rows, r.char_code ≠ pyUpper c) → _read s (some c) = []) := by
  refine ⟨fun s c₁ c₂ h₁ h₂ hu => ?_, fun s c r hnd hr hc h0 => ?_, fun s c h0 hmiss => ?_⟩
  · simp only [_read]
    rw [if_neg h₁, if_neg h₂, hu]
  · simp only [_read]
    rw [if_neg h0]
    exact filter_char_code_eq_singleton s.rows (pyUpper c) r hnd hr hc
  · simp only [_read]
    rw [if_neg h0]
    rw [List.filter_eq_nil_iff]
    intro r hr
    simp only [decide_eq_true_eq]
    exact hmiss r hr

/-- Witness for C6: on a store holding the single USD record, `"usd"` and
`"USD"` read identically, the read returns exactly that record, and a miss
(`"EUR"`) returns the empty list. -/
theorem read_case_insensitive_witness :
    _read ⟨[⟨1, "840", "USD", "USD", 90, 1⟩], 2⟩ (some "usd") =
      _read ⟨[⟨1, "840", "USD", "USD", 90, 1⟩], 2⟩ (some "USD") ∧
    _read ⟨[⟨1, "840", "USD", "USD", 90, 1⟩], 2⟩ (some "usd") =
      [⟨1, "840", "USD", "USD", 90, 1⟩] ∧
    _read ⟨[⟨1, "840", "USD", "USD", 90, 1⟩], 2⟩ (some "EUR") = [] :=
  ⟨read_case_insensitive.1 _ "usd" "USD" (by decide) (by decide) (by decide),
   read_case_insensitive.2.1 _ "usd" ⟨1, "840", "USD", "USD", 90, 1⟩
     (by decide) (by decide) (by decide) (by decide),
   read_case_insensitive.2.2 _ "EUR" (by decide) (by decide)⟩

/-- C7: `_update` on a code matching no record and `_delete` on an id
matching no record both leave the store completely unchanged and raise
nothing (they are total functions). -/
theorem update_delete_miss_noop :
    (∀ (s : Store) (code : String) (v : ℚ),
      (∀ r ∈ s.rows, r.char_code ≠ pyUpper code) → _update s [(code, v)] = s) ∧
    (∀ (s : Store) (i : Nat), (∀ r ∈ s.rows, r.id ≠ i) → _delete s i = s) := by
  constructor
  · intro s code v h
    have hm : s.rows.map (fun r =>
        if r.char_code = pyUpper code then { r with value := v } else r) = s.rows :=
      map_eq_self_of_fix _ _ (fun r hr => if_neg (h r hr))
    show ({ s with rows := s.rows.map (fun r =>
        if r.char_code = pyUpper code then { r with value := v } else r) } : Store) = s
    rw [hm]
  · intro s i h
    have hf : s.rows.filter (fun r => r.id ≠ i) = s.rows := by
      rw [List.filter_eq_self]
      intro r hr
      simp only [decide_eq_true_eq, ne_eq]
      exact h r hr
    show ({ s with rows := s.rows.filter (fun r => r.id ≠ i) } : Store) = s
    rw [hf]

/-- Witness for C7: updating a missing `"EUR"` with 99.5 and deleting a
missing id 7 on a one-record store both return the store unchanged. -/
theorem update_delete_miss_noop_witness :
    _update ⟨[⟨1, "840", "USD", "USD", 90, 1⟩], 2⟩ [("EUR", 99.5)] =
      ⟨[⟨1, "840", "USD", "USD", 90, 1⟩], 2⟩ ∧
    _delete ⟨[⟨1, "840", "USD", "USD", 90, 1⟩], 2⟩ 7 =
      ⟨[⟨1, "840", "USD", "USD", 90, 1⟩], 2⟩ :=
  ⟨update_delete_miss_noop.1 _ "EUR" 99.5 (by decide),
   update_delete_miss_noop.2 _ 7 (by decide)⟩

/-- Counterexample to C5: inserting `"usd"` while `"USD"` exists does not
violate the case-sensitive UNIQUE constraint — the insert succeeds (no
`ConstraintViolation`) and the store gains a second record. -/
theorem create_lowercase_duplicate_succeeds :
    _create ⟨[⟨1, "840", "USD", "USD", 90, 1⟩], 2⟩ [⟨"000", "usd", "usd", 5, 1⟩] =
      (⟨[⟨1, "840", "USD", "USD", 90, 1⟩, ⟨2, "000", "usd", "usd", 5, 1⟩], 3⟩, none) ∧
    (⟨[⟨1, "840", "USD", "USD", 90, 1⟩, ⟨2, "000", "usd", "usd", 5, 1⟩], 3⟩ : Store) ≠
      ⟨[⟨1, "840", "USD", "USD", 90, 1⟩], 2⟩ := by
  constructor <;> decide

/-- C5 (amended): `_create` of a single record whose `char_code` exactly
(case-sensitively) duplicates an existing record's `char_code` fails with
`ConstraintViolation` and leaves the store unchanged. -/
theorem create_exact_duplicate_rejected (s : Store) (inp : CurrencyInput)
    (r : CurrencyRow) (hr : r ∈ s.rows) (hc : inp.char_code = r.char_code) :
    _create s [inp] = (s, some .constraintViolation) := by
  have hany : s.rows.any (fun x => x.char_code = inp.char_code) = true :=
    List.any_eq_true.mpr ⟨r, hr, by simp [hc]⟩
  unfold _create
  rw [if_pos hany]

/-- Witness for C5 (amended): re-inserting char code `"USD"` over the
existing `"USD"` record is rejected and the store is unchanged. -/
theorem create_exact_duplicate_rejected_witness :
    _create ⟨[⟨1, "840", "USD", "USD", 90, 1⟩], 2⟩ [⟨"000", "USD", "Dollar", 5, 1⟩] =
      (⟨[⟨1, "840", "USD", "USD", 90, 1⟩], 2⟩, some .constraintViolation) :=
  create_exact_duplicate_rejected ⟨[⟨1, "840", "USD", "USD", 90, 1⟩], 2⟩
    ⟨"000", "USD", "Dollar", 5, 1⟩ ⟨1, "840", "USD", "USD", 90, 1⟩
    (by decide) (by decide)

/-- Counterexample to C8: the feed client compares requested codes to feed
keys case-sensitively (`if code not in data["Valute"]`): requesting
`"usd"` when the feed key is `"USD"` raises the not-found error. -/
theorem fetch_lowercase_request_not_found :
    get_currencies ["usd"] (.ok [("USD", some (.num 90))]) =
      .error (.currencyMissing "usd") := by
  rfl

/-- C8 (amended): feed matching is case-sensitive — a single requested code
fails with the not-found error exactly when it is absent verbatim from the
`Valute` keys, and succeeds (with the numeric value) when it is present
verbatim. -/
theorem fetch_exact_match (valute : List (String × ValuteEntry)) (code : String) :
    (dictGet? valute code = none →
      get_currencies [code] (.ok valute) = .error (.currencyMissing code)) ∧
    (∀ q : ℚ, dictGet? valute code = some (some (.num q)) →
      get_currencies [code] (.ok valute) = .ok [(code, q)]) := by
  constructor
  · intro h
    unfold get_currencies fetchLoop
    rw [h]
  · intro q h
    unfold get_currencies fetchLoop
    rw [h]
    simp [isNumericPy, dictInsert, pyFloat, fetchLoop]

/-- Witness for C8 (amended): on the feed `{"USD": {"Value": 90}}`,
requesting `"usd"` fails with not-found while requesting `"USD"`
succeeds. -/
theorem fetch_exact_match_witness :
    get_currencies ["usd"] (.ok [("USD", some (.num 90))]) =
      .error (.currencyMissing "usd") ∧
    get_currencies ["USD"] (.ok [("USD", some (.num 90))]) = .ok [("USD", 90)] :=
  ⟨(fetch_exact_match [("USD", some (.num 90))] "usd").1 (by rfl),
   (fetch_exact_match [("USD", some (.num 90))] "USD").2 90 (by rfl)⟩

/-- Counterexample to C9: a boolean `Value` is not numeric, yet it is not
rejected — `isinstance(value, (int, float))` accepts Python booleans, so
`{"USD": {"Value": True}}` fetches as 1.0 and the coerced value reaches the
store through sync. -/
theorem bool_value_not_rejected :
    get_currencies ["USD"] (.ok [("USD", some (.bool true))]) = .ok [("USD", 1)] ∧
    update_from_cbr Store.empty ["USD"] (.ok [("USD", some (.bool true))]) =
      (⟨[⟨1, "840", "USD", "USD", 1, 1⟩], 2⟩, none) := by
  constructor <;> rfl

/-- C9 (amended): a `Value` that fails the `isinstance(value, (int, float))`
guard — absent, a string, or null, but not a boolean — is rejected with the
type error by the feed client, before any value reaches the store. -/
theorem non_numeric_value_rejected (valute : List (String × ValuteEntry))
    (code : String) (entry : ValuteEntry)
    (hget : dictGet? valute code = some entry)
    (hnum : isNumericPy entry = false) :
    get_currencies [code] (.ok valute) = .error (.badValueType code) := by
  unfold get_currencies fetchLoop
  rw [hget]
  simp [hnum]

/-- Witness for C9 (amended): the string value `"bad"` for `"USD"` is
rejected with the type error. -/
theorem non_numeric_value_rejected_witness :
    get_currencies ["USD"] (.ok [("USD", some (.str "bad"))]) =
      .error (.badValueType "USD") :=
  non_numeric_value_rejected [("USD", some (.str "bad"))] "USD"
    (some (.str "bad")) (by rfl) (by rfl)

/-- Filtering by a key after mapping the value-update for that key equals
filtering first and updating the values of the matches (the update never
changes a row's `char_code`). -/
theorem filter_update_map (rows : List CurrencyRow) (c : String) (v : ℚ) :
    (rows.map (fun x => if x.char_code = c then { x with value := v } else x)).filter
      (fun x => x.char_code = c) =
    (rows.filter (fun x => x.char_code = c)).map (fun x => { x with value := v }) := by
  induction rows with
  | nil => rfl
  | cons a t ih =>
    by_cases h : a.char_code = c
    · simp [List.filter_cons, h, ih]
    · simp [List.filter_cons, h, ih]

/-- C4: when the sync loop finds the code already present, it replaces only
that record's value: the store is the pointwise value-rewrite of the old
store (no error), the unique record for the code keeps its id, name,
nominal and numeric code (only `value` becomes the new rate), the record
count and the autoincrement counter are unchanged (nothing was inserted),
and every row for a different code is untouched. -/
theorem sync_existing_updates_value_only (s : Store) (code : String) (v : ℚ)
    (r : CurrencyRow) (hnd : (s.rows.map (fun x => x.char_code)).Nodup)
    (hr : r ∈ s.rows) (hc : r.char_code = pyUpper code) :
    syncOne s code v =
      ({ s with rows := s.rows.map (fun x =>
          if x.char_code = pyUpper code then { x with value := v } else x) }, none) ∧
    (syncOne s code v).1.rows.filter (fun x => x.char_code = pyUpper code) =
      [{ r with value := v }] ∧
    (syncOne s code v).1.rows.length = s.rows.length ∧
    (syncOne s code v).1.next_id = s.next_id ∧
    ∀ x ∈ s.rows, x.char_code ≠ pyUpper code → x ∈ (syncOne s code v).1.rows := by
  have hup : pyUpper (pyUpper code) = pyUpper code := pyUpper_pyUpper code
  have hmem : r ∈ _read s (some (pyUpper code)) := by
    simp only [_read]
    by_cases h0 : pyUpper code = ""
    · rw [if_pos h0]
      exact hr
    · rw [if_neg h0]
      exact List.mem_filter.mpr ⟨hr, by simp [hc, hup]⟩
  obtain ⟨x, hx⟩ : ∃ x, get_currency s code = some x := by
    unfold get_currency
    cases hL : _read s (some (pyUpper code)) with
    | nil => rw [hL] at hmem; cases hmem
    | cons a t => exact ⟨a, rfl⟩
  have h1 : syncOne s code v =
      ({ s with rows := s.rows.map (fun x =>
          if x.char_code = pyUpper code then { x with value := v } else x) }, none) := by
    unfold syncOne
    rw [hx]
    show (update_currency s code v, none) = _
    unfold update_currency
    simp only [_update]
    rw [hup]
  refine ⟨h1, ?_, ?_, ?_, ?_⟩
  · simp only [h1]
    rw [filter_update_map,
      filter_char_code_eq_singleton s.rows (pyUpper code) r hnd hr hc]
    rfl
  · simp only [h1]
    exact List.length_map _ _
  · simp only [h1]
  · intro y hy hyne
    simp only [h1]
    exact List.mem_map.mpr ⟨y, hy, by rw [if_neg hyne]⟩

/-- Witness for C4: the spec scenario — store pre-populated with USD rate
90.0, feed rate 95.5: one sync step yields exactly the same record with the
same id 1 and value 95.5, nothing inserted. -/
theorem sync_existing_updates_value_only_witness :
    syncOne ⟨[⟨1, "840", "USD", "USD", 90, 1⟩], 2⟩ "USD" 95.5 =
      (⟨[⟨1, "840", "USD", "USD", 95.5, 1⟩], 2⟩, none) := by
  have h := sync_existing_updates_value_only ⟨[⟨1, "840", "USD", "USD", 90, 1⟩], 2⟩
    "USD" 95.5 ⟨1, "840", "USD", "USD", 90, 1⟩ (by decide) (by decide) (by rfl)
  rw [h.1]
  rfl

/-- For an upper-case-invariant key, `_read` keyed by the upper-cased code
is the unfiltered read for the empty key and the exact filter otherwise. -/
theorem read_upper_eq (s : Store) (k : String) (hk : pyUpper k = k) :
    _read s (some (pyUpper k)) =
      if k = "" then s.rows else s.rows.filter (fun r => r.char_code = k) := by
  rw [hk]
  simp only [_read]
  rw [hk]

/-- For an upper-case-invariant key, `update_currency` rewrites exactly the
values of the rows whose `char_code` equals the key. -/
theorem update_currency_upper (s : Store) (k : String) (v : ℚ) (hk : pyUpper k = k) :
    update_currency s k v = { s with rows := s.rows.map (fun r =>
      if r.char_code = k then { r with value := v } else r) } := by
  unfold update_currency
  simp only [_update]
  rw [pyUpper_pyUpper, hk]

/-- One sync step on an upper-case-invariant key never raises and
establishes `Synced` for that key. -/
theorem syncOne_upper (s : Store) (k : String) (v : ℚ) (hk : pyUpper k = k) :
    ∃ s', syncOne s k v = (s', none) ∧ Synced s' k v := by
  unfold syncOne
  cases hx : get_currency s k with
  | none =>
    unfold get_currency at hx
    rw [List.head?_eq_none_iff, read_upper_eq s k hk] at hx
    have hnone : ∀ r ∈ s.rows, r.char_code ≠ k := by
      intro r hr hrk
      by_cases h0 : k = ""
      · rw [if_pos h0] at hx
        rw [hx] at hr
        cases hr
      · rw [if_neg h0] at hx
        have : r ∈ s.rows.filter (fun r => r.char_code = k) :=
          List.mem_filter.mpr ⟨hr, by simp [hrk]⟩
        rw [hx] at this
        cases this
    have hany : s.rows.any (fun x => x.char_code = k) = false := by
      rw [List.any_eq_false]
      intro r hr
      simp only [decide_eq_true_eq]
      exact hnone r hr
    refine ⟨⟨s.rows ++ [⟨s.next_id, _default_num_code k, k, k, v, 1⟩], s.next_id + 1⟩, ?_, ?_⟩
    · show _create s [⟨_default_num_code k, k, k, v, 1⟩] = _
      unfold _create
      rw [if_neg (by rw [hany]; exact Bool.false_ne_true)]
      rfl
    · constructor
      · intro r hr hrk
        rcases List.mem_append.mp hr with hr | hr
        · exact absurd hrk (hnone r hr)
        · rw [List.mem_singleton] at hr
          subst hr
          rfl
      · exact Or.inl ⟨⟨s.next_id, _default_num_code k, k, k, v, 1⟩,
          List.mem_append_right _ (List.mem_singleton.mpr rfl), rfl⟩
  | some x =>
    have hxmem : x ∈ _read s (some (pyUpper k)) := by
      unfold get_currency at hx
      exact List.mem_of_mem_head? hx
    refine ⟨update_currency s k v, ⟨rfl, ?_, ?_⟩⟩
    · intro r hr hrk
      rw [update_currency_upper s k v hk] at hr
      rcases List.mem_map.mp hr with ⟨y, _, rfl⟩
      by_cases hy : y.char_code = k
      · rw [if_pos hy]
      · rw [if_neg hy] at hrk ⊢
        exact absurd hrk hy
    · rw [read_upper_eq s k hk] at hxmem
      by_cases h0 : k = ""
      · rw [if_pos h0] at hxmem
        refine Or.inr ⟨h0, ?_⟩
        rw [update_currency_upper s k v hk]
        exact fun hnil => by
          rw [List.map_eq_nil_iff] at hnil
          rw [hnil] at hxmem
          cases hxmem
      · rw [if_neg h0] at hxmem
        have := List.mem_filter.mp hxmem
        refine Or.inl ⟨if x.char_code = k then { x with value := v } else x, ?_, ?_⟩
        · rw [update_currency_upper s k v hk]
          exact List.mem_map.mpr ⟨x, this.1, rfl⟩
        · have hxk : x.char_code = k := by simpa using this.2
          rw [if_pos hxk, hxk]

/-- One sync step on an already-`Synced` upper-case-invariant key is the
identity and raises nothing: the update rewrites the same rates. -/
theorem syncOne_of_synced (s : Store) (k : String) (v : ℚ) (hk : pyUpper k = k)
    (hs : Synced s k v) : syncOne s k v = (s, none) := by
  obtain ⟨hall, hex⟩ := hs
  have hne : _read s (some (pyUpper k)) ≠ [] := by
    rw [read_upper_eq s k hk]
    rcases hex with ⟨r, hr, hrk⟩ | ⟨h0, hnil⟩
    · by_cases h0 : k = ""
      · rw [if_pos h0]
        exact List.ne_nil_of_mem hr
      · rw [if_neg h0]
        exact List.ne_nil_of_mem (List.mem_filter.mpr ⟨hr, by simp [hrk]⟩)
    · rw [if_pos h0]
      exact hnil
  obtain ⟨x, hx⟩ : ∃ x, get_currency s k = some x := by
    unfold get_currency
    cases hL : _read s (some (pyUpper k)) with
    | nil => exact absurd hL hne
    | cons a t => exact ⟨a, rfl⟩
  unfold syncOne
  rw [hx]
  show (update_currency s k v, none) = (s, none)
  rw [update_currency_upper s k v hk]
  have : s.rows.map (fun r => if r.char_code = k then { r with value := v } else r)
      = s.rows := by
    apply map_eq_self_of_fix
    intro r hr
    by_cases hrk : r.char_code = k
    · rw [if_pos hrk]
      exact update_value_self r v (hall r hr hrk)
    · rw [if_neg hrk]
  rw [this]

/-- One sync step on a different upper-case-invariant key preserves
`Synced`, whether or not the step raises. -/
theorem syncOne_preserves_synced (s : Store) (k k' : String) (v v' : ℚ)
    (hk' : pyUpper k' = k') (hne : k ≠ k') (hs : Synced s k v) :
    Synced (syncOne s k' v' ).1 k v := by
  obtain ⟨hall, hex⟩ := hs
  unfold syncOne
  cases hx : get_currency s k' with
  | none =>
    show Synced (_create s [⟨_default_num_code k', k', k', v', 1⟩]).1 k v
    by_cases hany : s.rows.any (fun x => x.char_code = k') = true
    · unfold _create
      rw [if_pos hany]
      exact ⟨hall, hex⟩
    · have h1 : _create s [⟨_default_num_code k', k', k', v', 1⟩] =
          (⟨s.rows ++ [⟨s.next_id, _default_num_code k', k', k', v', 1⟩],
            s.next_id + 1⟩, none) := by
        unfold _create
        rw [if_neg hany]
        rfl
      rw [h1]
      constructor
      · intro r hr hrk
        rcases List.mem_append.mp hr with hr | hr
        · exact hall r hr hrk
        · rw [List.mem_singleton] at hr
          subst hr
          exact absurd hrk.symm hne
      · rcases hex with ⟨r, hr, hrk⟩ | ⟨h0, hnil⟩
        · exact Or.inl ⟨r, List.mem_append_left _ hr, hrk⟩
        · exact Or.inr ⟨h0, by simp⟩
  | some x =>
    show Synced (update_currency s k' v', none).1 k v
    rw [update_currency_upper s k' v' hk']
    constructor
    · intro r hr hrk
      rcases List.mem_map.mp hr with ⟨y, hy, rfl⟩
      by_cases hyk : y.char_code = k'
      · rw [if_pos hyk] at hrk ⊢
        exact absurd (hyk ▸ hrk : k' = k) (Ne.symm hne)
      · rw [if_neg hyk] at hrk ⊢
        exact hall y hy hrk
    · rcases hex with ⟨r, hr, hrk⟩ | ⟨h0, hnil⟩
      · refine Or.inl ⟨r, ?_, hrk⟩
        have hrk' : ¬(r.char_code = k') := fun h => hne (hrk ▸ h ▸ rfl)
        exact List.mem_map.mpr ⟨r, hr, by rw [if_neg hrk']⟩
      · refine Or.inr ⟨h0, ?_⟩
        intro hnil'
        rw [List.map_eq_nil_iff] at hnil'
        exact hnil hnil'

/-- The sync loop over keys all different from `k` (and upper-case
invariant) preserves `Synced` for `k`, whether or not the loop raises. -/
theorem applyRates_preserves_synced : ∀ (rates : List (String × ℚ)) (s : Store)
    (k : String) (v : ℚ), (∀ p ∈ rates, pyUpper p.1 = p.1 ∧ p.1 ≠ k) →
    Synced s k v → Synced (applyRates s rates).1 k v := by
  intro rates
  induction rates with
  | nil =>
    intro s k v _ hs
    exact hs
  | cons q rest ih =>
    intro s k v hks hs
    obtain ⟨k', v'⟩ := q
    have hp := hks (k', v') (List.mem_cons_self _ _)
    simp only [applyRates]
    cases he : syncOne s k' v' with
    | mk s' e2 =>
      have hpres := syncOne_preserves_synced s k k' v v' hp.1 (Ne.symm hp.2) hs
      rw [he] at hpres
      cases e2 with
      | none => exact ih s' k v (fun p' h => hks p' (List.mem_cons_of_mem _ h)) hpres
      | some e => exact hpres

/-- A successful sync pass over pairwise-distinct upper-case-invariant keys
leaves every fetched pair `Synced` in the final store. -/
theorem applyRates_establishes : ∀ (rates : List (String × ℚ)) (s s1 : Store),
    (∀ p ∈ rates, pyUpper p.1 = p.1) → (rates.map (fun p => p.1)).Nodup →
    applyRates s rates = (s1, none) → ∀ p ∈ rates, Synced s1 p.1 p.2 := by
  intro rates
  induction rates with
  | nil =>
    intro s s1 _ _ _ p hp
    cases hp
  | cons q rest ih =>
    intro s s1 hupper hnd happ
    obtain ⟨k, v⟩ := q
    simp only [List.map_cons, List.nodup_cons] at hnd
    obtain ⟨s', hs', hsync⟩ := syncOne_upper s k v (hupper (k, v) (List.mem_cons_self _ _))
    simp only [applyRates] at happ
    rw [hs'] at happ
    have hrest : applyRates s' rest = (s1, none) := happ
    intro p hp
    rcases List.mem_cons.mp hp with rfl | hp'
    · have hpre : Synced (applyRates s' rest).1 (k, v).1 (k, v).2 := by
        apply applyRates_preserves_synced rest s' (k, v).1 (k, v).2 ?_ hsync
        intro p' hp'
        refine ⟨hupper p' (List.mem_cons_of_mem _ hp'), ?_⟩
        intro hkeq
        have hkeq' : p'.1 = k := hkeq
        exact hnd.1 (hkeq' ▸ List.mem_map.mpr ⟨p', hp', rfl⟩)
      rw [hrest] at hpre
      exact hpre
    · exact ih s' s1 (fun p' h => hupper p' (List.mem_cons_of_mem _ h)) hnd.2 hrest p hp'

/-- A sync pass over upper-case-invariant keys that are all already
`Synced` is the identity on the store and raises nothing. -/
theorem applyRates_of_synced : ∀ (rates : List (String × ℚ)) (s : Store),
    (∀ p ∈ rates, pyUpper p.1 = p.1 ∧ Synced s p.1 p.2) →
    applyRates s rates = (s, none) := by
  intro rates
  induction rates with
  | nil =>
    intro s _
    rfl
  | cons q rest ih =>
    intro s hall
    obtain ⟨k, v⟩ := q
    have hq := hall (k, v) (List.mem_cons_self _ _)
    have h1 : syncOne s k v = (s, none) := syncOne_of_synced s k v hq.1 hq.2
    simp only [applyRates]
    rw [h1]
    exact ih s (fun p hp => hall p (List.mem_cons_of_mem _ hp))

/-- Counterexample to C1: with the feed mapping `{"usd": 1.0}` (a
lower-case key) and an empty store, the first sync inserts the record with
`char_code` `"usd"`, and the second sync with the identical feed does not
perform only updates — it takes the insert path again (the upper-cased
read misses the stored `"usd"` row) and raises `ConstraintViolation`. -/
theorem sync_second_run_raises_on_lowercase_code :
    update_from_cbr Store.empty ["usd"] (.ok [("usd", some (.num 1))]) =
      (⟨[⟨1, "840", "usd", "usd", 1, 1⟩], 2⟩, none) ∧
    update_from_cbr ⟨[⟨1, "840", "usd", "usd", 1, 1⟩], 2⟩ ["usd"]
        (.ok [("usd", some (.num 1))]) =
      (⟨[⟨1, "840", "usd", "usd", 1, 1⟩], 2⟩, some (.db .constraintViolation)) := by
  constructor <;> rfl

/-- C1 (amended): for every feed output whose codes are already upper-case
(as the CBR feed's codes are), sync is idempotent — a second
`update_from_cbr` with the same unchanged feed mapping returns the store of
the first run completely unchanged and raises nothing: every step takes
the update path and rewrites the same rates. -/
theorem sync_idempotent_upper (s s1 : Store) (codes : List String)
    (resp : FeedResponse) (rates : List (String × ℚ))
    (hfetch : get_currencies codes resp = .ok rates)
    (hupper : ∀ p ∈ rates, pyUpper p.1 = p.1)
    (hnd : (rates.map (fun p => p.1)).Nodup)
    (hfirst : update_from_cbr s codes resp = (s1, none)) :
    update_from_cbr s1 codes resp = (s1, none) := by
  unfold update_from_cbr at hfirst ⊢
  rw [hfetch] at hfirst ⊢
  have hfirst2 : (match applyRates s rates with
      | (s', none) => (s', none)
      | (s', some e) => (s', some (SyncError.db e))) = (s1, none) := hfirst
  have happ : applyRates s rates = (s1, none) := by
    cases hA : applyRates s rates with
    | mk s2 e2 =>
      rw [hA] at hfirst2
      cases e2 with
      | none =>
        have hh : (s2, (none : Option SyncError)) = (s1, none) := hfirst2
        have hs2 : s2 = s1 := (Prod.ext_iff.mp hh).1
        rw [hs2]
      | some e =>
        have hh : (s2, some (SyncError.db e)) = (s1, (none : Option SyncError)) := hfirst2
        exact absurd (Prod.ext_iff.mp hh).2 (by simp)
  have hsync := applyRates_establishes rates s s1 hupper hnd happ
  have h2 : applyRates s1 rates = (s1, none) :=
    applyRates_of_synced rates s1 (fun p hp => ⟨hupper p hp, hsync p hp⟩)
  show (match applyRates s1 rates with
      | (s', none) => (s', none)
      | (s', some e) => (s', some (SyncError.db e))) = (s1, none)
  rw [h2]

/-- Witness for C1 (amended): syncing `{"USD": 91.2}` into the store that
the first sync produced changes nothing and raises nothing. -/
theorem sync_idempotent_upper_witness :
    update_from_cbr ⟨[⟨1, "840", "USD", "USD", 91.2, 1⟩], 2⟩ ["USD"]
        (.ok [("USD", some (.num 91.2))]) =
      (⟨[⟨1, "840", "USD", "USD", 91.2, 1⟩], 2⟩, none) :=
  sync_idempotent_upper Store.empty ⟨[⟨1, "840", "USD", "USD", 91.2, 1⟩], 2⟩
    ["USD"] (.ok [("USD", some (.num 91.2))]) [("USD", 91.2)]
    (by rfl) (by decide) (by decide) (by rfl)

end Lab9
